import Mathlib

/-!
Verification of the TheEye repository (facebook_comments package).

The development shallowly embeds the core of
`src/facebook_comments/utils.py` (class `TimeSeries`, methods
`parse_new_time` and `generate_statistics`) and the persistence
round-trip contract.

Modelling conventions:
* A Python `datetime.datetime` is a `DateTime` structure holding
  (year, month, day, hour, minute, second); microseconds are always 0 in
  this program (truncated away at insertion, absent from the parsed
  format) and are omitted.  CPython compares datetimes lexicographically
  on these components; `dtLt`/`dtLe` embed that comparison.
* Where the Python code does datetime/timedelta arithmetic we linearize
  instants to integer seconds since 0001-01-01 via the proleptic
  Gregorian calendar (`civilDays`, `toSec`); this bijection onto valid
  datetimes is exact because all quantities involved are whole seconds
  (CPython `timedelta.total_seconds` is exact here: the values stay far
  below 2^53).  Python floats therefore behave as exact integers and
  `%` on them agrees with `Int.fmod` (sign of the divisor), while
  `int(x / y)` for exact integer `x / y` agrees with `Int.tdiv`
  (truncation toward zero).
* CPython `datetime`/`date` are range-limited to years 1..9999;
  arithmetic producing an out-of-range instant raises `OverflowError`
  and constructing `datetime(y, m, 1)` with `y` outside 1..9999 raises
  `ValueError`.  The embedding checks these bounds exactly where the
  Python code can hit them.
* Exceptions are modelled by `Except AggError`; `AggError` names follow
  the spec's taxonomy (`parseError`, `emptyData`) plus the raw Python
  exceptions that have no spec name (`zeroDivision`, `keyError`,
  `overflow`, `valueError`).
* Python dicts (`Counter`, `OrderedDict`) become association lists in
  insertion order; dict keys that are dates / first-of-month dates /
  years are embedded as `Int` day numbers / month indices
  (`12*y + m - 1`) / years, all injective images of the Python keys.
-/

/-- A CPython `datetime.datetime` with microsecond 0: the only instants
this program manipulates. -/
structure DateTime where
  year : Int
  month : Nat
  day : Nat
  hour : Nat
  minute : Nat
  second : Nat
deriving DecidableEq, Repr

/-- Field ranges of a constructible CPython datetime (`MINYEAR = 1`,
`MAXYEAR = 9999`). `day ≤ 31` is the coarse bound; exact month lengths
are enforced by the parser. -/
def DateTime.Valid (t : DateTime) : Prop :=
  1 ≤ t.year ∧ t.year ≤ 9999 ∧ 1 ≤ t.month ∧ t.month ≤ 12 ∧
    1 ≤ t.day ∧ t.day ≤ 31 ∧ t.hour ≤ 23 ∧ t.minute ≤ 59 ∧ t.second ≤ 59

instance (t : DateTime) : Decidable t.Valid := by
  unfold DateTime.Valid; infer_instance

/-- CPython `datetime.__lt__`: lexicographic comparison of the component
tuples. -/
def dtLt (a b : DateTime) : Bool :=
  if a.year ≠ b.year then decide (a.year < b.year)
  else if a.month ≠ b.month then decide (a.month < b.month)
  else if a.day ≠ b.day then decide (a.day < b.day)
  else if a.hour ≠ b.hour then decide (a.hour < b.hour)
  else if a.minute ≠ b.minute then decide (a.minute < b.minute)
  else decide (a.second < b.second)

/-- CPython `datetime.__le__`: lexicographic comparison of the component
tuples. -/
def dtLe (a b : DateTime) : Bool :=
  if a.year ≠ b.year then decide (a.year < b.year)
  else if a.month ≠ b.month then decide (a.month < b.month)
  else if a.day ≠ b.day then decide (a.day < b.day)
  else if a.hour ≠ b.hour then decide (a.hour < b.hour)
  else if a.minute ≠ b.minute then decide (a.minute < b.minute)
  else decide (a.second ≤ b.second)

/-- Day number of a proleptic Gregorian date, days since 1970-01-01
(Howard Hinnant's `days_from_civil`, which is also what CPython's
`date.toordinal` computes up to the constant 719468 + 719162). -/
def daysFromCivil (y : Int) (m d : Nat) : Int :=
  let y' : Int := y - (if m ≤ 2 then 1 else 0)
  let era : Int := Int.fdiv y' 400
  let yoe : Int := y' - era * 400
  let mp : Int := if 2 < m then (m : Int) - 3 else (m : Int) + 9
  let doy : Int := (153 * mp + 2) / 5 + (d : Int) - 1
  let doe : Int := yoe * 365 + yoe / 4 - yoe / 100 + doy
  era * 146097 + doe - 719468

/-- Day number of a datetime's `.date()`. -/
def civilDays (t : DateTime) : Int := daysFromCivil t.year t.month t.day

/-- Seconds since 0001-01-01 shifted to the 1970 epoch: the exact
linearization of a valid datetime used for all timedelta arithmetic. -/
def toSec (t : DateTime) : Int :=
  86400 * civilDays t + 3600 * (t.hour : Int) + 60 * (t.minute : Int) + (t.second : Int)

/-- Day number of `date.min` = 0001-01-01. -/
def dayMin : Int := daysFromCivil 1 1 1

/-- Day number of `date.max` = 9999-12-31. -/
def dayMax : Int := daysFromCivil 9999 12 31

/-- `toSec` of the smallest representable datetime. -/
def secLo : Int := 86400 * dayMin

/-- `toSec` of the largest representable whole second,
9999-12-31 23:59:59. -/
def secHi : Int := 86400 * dayMax + 86399

/-- Exceptions this program can raise.  `parseError` and `emptyData` are
the spec's names for the two `ValueError`s of `utils.py`; the others
keep their Python names (`ZeroDivisionError`, `KeyError`,
`OverflowError`, and the `ValueError` raised by the `datetime`
constructor inside the month grid). -/
inductive AggError where
  | parseError
  | emptyData
  | zeroDivision
  | keyError
  | overflow
  | valueError
deriving DecidableEq, Repr

/-- `TimeSeries` is a `collections.Counter` keyed by minute-truncated
datetimes: an association list in insertion order, absent key = 0. -/
abbrev TimeSeries := List (DateTime × Nat)

/-- Counter lookup: `self[k]` (0 when absent). -/
def tsGet (s : TimeSeries) (k : DateTime) : Nat :=
  match s with
  | [] => 0
  | (k', c) :: rest => if k' = k then c else tsGet rest k

/-- Counter increment `self[k] += 1`: bump an existing key or append a
new one with count 1. -/
def tsIncr (s : TimeSeries) (k : DateTime) : TimeSeries :=
  match s with
  | [] => [(k, 1)]
  | (k', c) :: rest => if k' = k then (k', c + 1) :: rest else (k', c) :: tsIncr rest k

/-- `time.replace(second=0, microsecond=0)`. -/
def truncMinute (t : DateTime) : DateTime := { t with second := 0 }

/-- Python 2 `isdigit` over ASCII decimal digits (all `\d` matches in
the `_strptime` regex). -/
def isDigit (c : Char) : Bool := decide ('0' ≤ c) && decide (c ≤ '9')

/-- Split a maximal leading run of decimal digits from the input. -/
def takeDigits : List Char → List Char × List Char
  | [] => ([], [])
  | c :: cs =>
    if isDigit c then
      let p := takeDigits cs
      (c :: p.1, p.2)
    else ([], c :: cs)

/-- Numeric value of a digit run. -/
def digitsVal (l : List Char) : Nat :=
  l.foldl (fun a c => 10 * a + (c.toNat - 48)) 0

/-- Match one numeric strptime directive: a digit run of length 1..2
whose value lies in the directive's range (the `_strptime` regex
alternations `1[0-2]|0[1-9]|[1-9]` etc. are exactly length-and-range
constraints because every field here is followed by a non-digit
literal). -/
def parseNum (cs : List Char) (lo hi : Nat) : Option (Nat × List Char) :=
  let p := takeDigits cs
  let v := digitsVal p.1
  if 1 ≤ p.1.length ∧ p.1.length ≤ 2 ∧ lo ≤ v ∧ hi ≥ v then some (v, p.2) else none

/-- Match `%Y`: exactly four digits (`\d\d\d\d`; a longer run fails
because the regex then meets a digit where the literal `-` is
required). -/
def parseYear (cs : List Char) : Option (Nat × List Char) :=
  let p := takeDigits cs
  if p.1.length = 4 then some (digitsVal p.1, p.2) else none

/-- Match one literal character of the format string. -/
def expectChar (c : Char) : List Char → Option (List Char)
  | [] => none
  | x :: xs => if x = c then some xs else none

/-- Gregorian leap year, as `calendar.isleap`. -/
def leapYear (y : Int) : Bool :=
  (decide (y % 4 = 0) && decide (y % 100 ≠ 0)) || decide (y % 400 = 0)

/-- Length of a month, as validated by the `datetime` constructor. -/
def daysInMonth (y : Int) (m : Nat) : Nat :=
  if m = 2 then (if leapYear y then 29 else 28)
  else if m = 4 ∨ m = 6 ∨ m = 9 ∨ m = 11 then 30
  else 31

/-- `datetime.datetime.strptime(time, '%Y-%m-%dT%H:%M:%S+0000')`:
match the fixed default format of `TimeSeries.parse_new_time` against
the whole string, then apply the `datetime` constructor's validation
(year ≥ 1, day within the month, second ≤ 59 — the regex alone would
admit leap seconds 60/61 which the constructor then rejects).
Returns `none` where CPython raises `ValueError`. -/
def strptimeDefault (s : String) : Option DateTime :=
  match parseYear s.data with
  | none => none
  | some (y, cs1) =>
  match expectChar '-' cs1 with
  | none => none
  | some cs2 =>
  match parseNum cs2 1 12 with
  | none => none
  | some (mo, cs3) =>
  match expectChar '-' cs3 with
  | none => none
  | some cs4 =>
  match parseNum cs4 1 31 with
  | none => none
  | some (d, cs5) =>
  match expectChar 'T' cs5 with
  | none => none
  | some cs6 =>
  match parseNum cs6 0 23 with
  | none => none
  | some (h, cs7) =>
  match expectChar ':' cs7 with
  | none => none
  | some cs8 =>
  match parseNum cs8 0 59 with
  | none => none
  | some (mi, cs9) =>
  match expectChar ':' cs9 with
  | none => none
  | some cs10 =>
  match parseNum cs10 0 61 with
  | none => none
  | some (sec, cs11) =>
  match expectChar '+' cs11 with
  | none => none
  | some cs12 =>
  match expectChar '0' cs12 with
  | none => none
  | some cs13 =>
  match expectChar '0' cs13 with
  | none => none
  | some cs14 =>
  match expectChar '0' cs14 with
  | none => none
  | some cs15 =>
  match expectChar '0' cs15 with
  | none => none
  | some cs16 =>
  if cs16.isEmpty ∧ 1 ≤ y ∧ d ≤ daysInMonth (y : Int) mo ∧ sec ≤ 59 then
    some ⟨(y : Int), mo, d, h, mi, sec⟩
  else none

/-- `TimeSeries.parse_new_time(self, time)` with the default format, as
a state transformer: `strptime` runs first, so on a parse failure the
exception (`ValueError`, the spec's `ParseError`) is raised before the
increment statement and the counter is untouched; on success the parsed
instant is truncated to the minute and its count incremented by one. -/
def parse_new_time (s : TimeSeries) (raw : String) : Option AggError × TimeSeries :=
  match strptimeDefault raw with
  | none => (some .parseError, s)
  | some t => (none, tsIncr s (truncMinute t))

/-- Python builtin `min` over the store's keys: first key as the running
value, replaced whenever a later key compares strictly smaller. -/
def pyMinKey (a : DateTime) : List DateTime → DateTime
  | [] => a
  | k :: rest => pyMinKey (if dtLt k a then k else a) rest

/-- Python builtin `max` over the store's keys. -/
def pyMaxKey (a : DateTime) : List DateTime → DateTime
  | [] => a
  | k :: rest => pyMaxKey (if dtLt a k then k else a) rest

/-- `min(self)` over a store, defaulting to an arbitrary instant on the
empty store (where the Python builtin raises instead; `tsMin` below
models that). -/
def tsMinKey (s : TimeSeries) : DateTime :=
  match s with
  | [] => ⟨1, 1, 1, 0, 0, 0⟩
  | p :: rest => pyMinKey p.1 (rest.map Prod.fst)

/-- `max(self)` over a store, with the same convention as `tsMinKey`. -/
def tsMaxKey (s : TimeSeries) : DateTime :=
  match s with
  | [] => ⟨1, 1, 1, 0, 0, 0⟩
  | p :: rest => pyMaxKey p.1 (rest.map Prod.fst)

/-- The spec's `min()` store operation: Python `min(store)`, which
raises `ValueError` (the spec's `EmptyDataError`) on an empty store. -/
def tsMin (s : TimeSeries) : Except AggError DateTime :=
  match s with
  | [] => .error .emptyData
  | p :: rest => .ok (pyMinKey p.1 (rest.map Prod.fst))

/-- The spec's `max()` store operation: Python `max(store)`. -/
def tsMax (s : TimeSeries) : Except AggError DateTime :=
  match s with
  | [] => .error .emptyData
  | p :: rest => .ok (pyMaxKey p.1 (rest.map Prod.fst))

/-- Month-grid key of `datetime.date(y, m, 1)`: the injective month
index `12*y + m - 1`. -/
def mIdx (y : Int) (m : Nat) : Int := 12 * y + (m : Int) - 1

/-- The n-th element of the infinite month generator
`chain(izip(repeat(begin), xrange(oldest.month, 13)),
(izip(repeat(y), xrange(1, 13)) for y in count(begin + 1)))`:
first the months `oldest.month..12` of the first year, then all months
of each following year. -/
def monthSeq (begin : Int) (om : Nat) (n : Nat) : Int × Nat :=
  if n < 13 - om then (begin, om + n)
  else
    let k := n - (13 - om)
    (begin + 1 + (k / 12 : Nat), 1 + k % 12)

/-- `takewhile(lambda d: datetime(*d, day=1) <= newest, months)`: the
predicate first constructs `datetime(y, m, 1)`, which raises
`ValueError` when the year leaves 1..9999 (or the month 1..12), and
only then compares against `newest`. -/
def monthTake (newest : DateTime) : List (Int × Nat) → Except AggError (List (Int × Nat))
  | [] => .ok []
  | ym :: rest =>
    if 1 ≤ ym.1 ∧ ym.1 ≤ 9999 ∧ 1 ≤ ym.2 ∧ ym.2 ≤ 12 then
      if dtLe ⟨ym.1, ym.2, 1, 0, 0, 0⟩ newest then
        match monthTake newest rest with
        | .ok l => .ok (ym :: l)
        | .error e => .error e
      else .ok []
    else .error .valueError

/-- `xrange(n)` as a list of integers (empty for `n ≤ 0`). -/
def intRange (n : Int) : List Int := (List.range n.toNat).map (fun i : Nat => (i : Int))

/-- The advanced reference: `reference += timedelta(days=1)` when the
minute-truncated reference is exactly midnight, else
`reference += timedelta(minutes=1)` (lines 66-71 of utils.py), as a
second count. -/
def advancedReference (r : DateTime) : Int :=
  if r.hour = 0 ∧ r.minute = 0 then toSec r + 86400 else toSec r + 60

/-- The four OrderedDicts yielded by one aggregation call, in yield
order.  Keys: `hourly` second counts, `dayly` day numbers, `monthly`
month indices, `yearly` years. -/
structure Stats where
  hourly : List (Int × Nat)
  dayly : List (Int × Nat)
  monthly : List (Int × Nat)
  yearly : List (Int × Nat)
deriving DecidableEq, Repr

/-- Dict increment `d[k] += amount`: `none` models `KeyError`. -/
def bump (l : List (Int × Nat)) (k : Int) (amount : Nat) : Option (List (Int × Nat)) :=
  match l with
  | [] => none
  | (k', c) :: rest =>
    if k' = k then some ((k', c + amount) :: rest)
    else (bump rest k amount).map (fun l' => (k', c) :: l')

/-- `try: d[k] += amount except KeyError: pass`. -/
def bumpTry (l : List (Int × Nat)) (k : Int) (amount : Nat) : List (Int × Nat) :=
  match bump l k amount with
  | some l' => l'
  | none => l

/-- Intraday bucket start computed for one event (lines 114-118 of
utils.py): `cur_datetime - timedelta(seconds=(cur_datetime -
reference).total_seconds() % interval)`; Python float `%` on these
exact integers agrees with `Int.fmod`. -/
def intradayBucket (t adv interval : Int) : Int := t - Int.fmod (t - adv) interval

/-- One iteration of the aggregation loop (lines 105-122 of utils.py):
unconditional year and month increments (`KeyError` would propagate),
guarded day increment, then the intraday bucket
`cur_datetime - timedelta(seconds=(cur_datetime - reference).total_seconds() % interval)`
(the subtraction raises `OverflowError` outside the datetime range — the
`try` around the dict access catches `KeyError` only) and the guarded
intraday increment. -/
def statStep (interval advSec : Int) (st : Stats) (p : DateTime × Nat) : Except AggError Stats :=
  match bump st.yearly p.1.year p.2 with
  | none => .error .keyError
  | some yearly1 =>
    match bump st.monthly (mIdx p.1.year p.1.month) p.2 with
    | none => .error .keyError
    | some monthly1 =>
      let dayly1 := bumpTry st.dayly (civilDays p.1) p.2
      let cur_bucket := intradayBucket (toSec p.1) advSec interval
      if secLo ≤ cur_bucket ∧ cur_bucket ≤ secHi then
        .ok ⟨bumpTry st.hourly cur_bucket p.2, dayly1, monthly1, yearly1⟩
      else .error .overflow

/-- `TimeSeries.generate_statistics(self, reference_datetime,
days_focussed, minutes_interval)`, lines 39-127 of utils.py, with the
generator consumed to exhaustion.  Evaluation order follows the source:
empty check; `min`/`max`; reference truncation and advancement (the
advancement can overflow past `datetime.max`); the yearly grid
`xrange(begin, newest.year + 1)`; the monthly grid (takewhile over the
infinite month chain, of which a sufficient finite prefix is
materialized — the predicate stops or raises within
`12 * (span + 2)` months); the daily grid
`reference_date - timedelta(days=offset)` for
`offset in reversed(xrange(days_focussed))` (the first, largest offset
underflows `date.min` first, raising `OverflowError`);
`interval = int(timedelta(minutes=minutes_interval).total_seconds())`;
`buckets = int(timedelta(days=1).total_seconds() / interval) + 1`
(`ZeroDivisionError` when `interval == 0`, float truncation toward
zero otherwise); the intraday grid
`reference - timedelta(seconds=i*interval)` for
`i in reversed(xrange(buckets))` (its extreme key, generated first, can
leave the datetime range); then the single pass over the counter. -/
def generate_statistics (s : TimeSeries) (reference_datetime : DateTime)
    (days_focussed minutes_interval : Int) : Except AggError Stats :=
  if s.isEmpty then .error .emptyData
  else if secHi < advancedReference (truncMinute reference_datetime) then .error .overflow
  else
    match monthTake (tsMaxKey s)
        ((List.range (12 * (((tsMaxKey s).year - (tsMinKey s).year).toNat + 2))).map
          (monthSeq (tsMinKey s).year (tsMinKey s).month)) with
    | .error e => .error e
    | .ok monthPairs =>
      if 0 < days_focussed ∧
          civilDays (truncMinute reference_datetime) - (days_focussed - 1) < dayMin then
        .error .overflow
      else if 60 * minutes_interval = 0 then .error .zeroDivision
      else if 0 < Int.tdiv 86400 (60 * minutes_interval) + 1 ∧
          ¬(secLo ≤ advancedReference (truncMinute reference_datetime)
              - (Int.tdiv 86400 (60 * minutes_interval) + 1 - 1) * (60 * minutes_interval) ∧
            advancedReference (truncMinute reference_datetime)
              - (Int.tdiv 86400 (60 * minutes_interval) + 1 - 1) * (60 * minutes_interval)
              ≤ secHi) then
        .error .overflow
      else
        s.foldlM
          (statStep (60 * minutes_interval) (advancedReference (truncMinute reference_datetime)))
          ⟨(intRange (Int.tdiv 86400 (60 * minutes_interval) + 1)).reverse.map
              (fun i => (advancedReference (truncMinute reference_datetime)
                - i * (60 * minutes_interval), 0)),
            (intRange days_focussed).reverse.map
              (fun offset => (civilDays (truncMinute reference_datetime) - offset, 0)),
            monthPairs.map (fun ym => (mIdx ym.1 ym.2, 0)),
            (intRange ((tsMaxKey s).year + 1 - (tsMinKey s).year)).map
              (fun i => ((tsMinKey s).year + i, 0))⟩

/-- Count stored under a key of one output series. -/
def seriesCount (l : List (Int × Nat)) (k : Int) : Option Nat :=
  (l.find? (fun p => p.1 == k)).map Prod.snd

/-- Modelled from the spec: `TimeSeries.pickle` is called from
`facebook_comments/__init__.py` (`storage.pickle(storage_file)`) but is
not defined anywhere under `src/`; the spec specifies only the opaque
serialize contract ("serialize/deserialize to a byte blob").  The blob
is modelled as the flat list of the store's (key, count) entries with
the datetime fields spelled out as integers. -/
def serialize (s : TimeSeries) : List (List Int × Nat) :=
  s.map (fun p =>
    ([p.1.year, (p.1.month : Int), (p.1.day : Int), (p.1.hour : Int),
      (p.1.minute : Int), (p.1.second : Int)], p.2))

/-- Modelled from the spec: decode one serialized datetime. -/
def decodeDT (l : List Int) : Option DateTime :=
  match l with
  | [y, mo, d, h, mi, sec] => some ⟨y, mo.toNat, d.toNat, h.toNat, mi.toNat, sec.toNat⟩
  | _ => none

/-- Modelled from the spec: `TimeSeries.unpickle`, called from
`facebook_comments/__init__.py` but not defined under `src/`; rebuilds
the full key→count mapping from the blob, failing on a malformed
blob. -/
def deserialize (l : List (List Int × Nat)) : Option TimeSeries :=
  match l with
  | [] => some []
  | (enc, c) :: rest => do
    let k ← decodeDT enc
    let s ← deserialize rest
    some ((k, c) :: s)

/-- `generate_statistics` as a state transformer on the store: the
method only reads `self` (via `min`, `max`, `iteritems`) and writes
exclusively to the four freshly created OrderedDicts, so the store
after the call is the store before it. -/
def generate_statistics_call (s : TimeSeries) (args : DateTime × Int × Int) :
    Except AggError Stats × TimeSeries :=
  (generate_statistics s args.1 args.2.1 args.2.2, s)

/-- A sequence of aggregation calls against one store, returning the
final store and every call's output. -/
def runCalls (s : TimeSeries) : List (DateTime × Int × Int) → TimeSeries × List (Except AggError Stats)
  | [] => (s, [])
  | a :: rest =>
    let r := generate_statistics_call s a
    let next := runCalls r.2 rest
    (next.1, r.1 :: next.2)

theorem tsGet_tsIncr_same (s : TimeSeries) (k : DateTime) :
    tsGet (tsIncr s k) k = tsGet s k + 1 := by
  induction s with
  | nil => simp [tsGet, tsIncr]
  | cons p rest ih =>
    obtain ⟨k', c⟩ := p
    by_cases h : k' = k
    · simp [tsGet, tsIncr, h]
    · simp [tsGet, tsIncr, h, ih]

theorem tsGet_tsIncr_other (s : TimeSeries) (k k' : DateTime) (h : k' ≠ k) :
    tsGet (tsIncr s k) k' = tsGet s k' := by
  induction s with
  | nil => simp [tsGet, tsIncr, Ne.symm h]
  | cons p rest ih =>
    obtain ⟨k0, c⟩ := p
    by_cases h0 : k0 = k
    · subst h0
      simp [tsGet, tsIncr, Ne.symm h]
    · by_cases h1 : k0 = k'
      · simp [tsGet, tsIncr, h0, h1, h]
      · simp [tsGet, tsIncr, h0, h1, ih]

theorem decodeDT_serialize (t : DateTime) :
    decodeDT [t.year, (t.month : Int), (t.day : Int), (t.hour : Int),
      (t.minute : Int), (t.second : Int)] = some t := by
  simp [decodeDT]

theorem deserialize_serialize (s : TimeSeries) : deserialize (serialize s) = some s := by
  induction s with
  | nil => rfl
  | cons p rest ih =>
    obtain ⟨k, c⟩ := p
    simp [serialize] at ih ⊢
    simp [deserialize, decodeDT_serialize, ih]

theorem fmod_mul_self (f q : Int) : Int.fmod (f * q) f = 0 := by
  by_cases hf : f = 0
  · subst hf
    simp [Int.fmod]
  · have h := Int.fmod_add_fdiv (f * q) f
    rw [Int.mul_fdiv_cancel_left q hf] at h
    omega

theorem intradayBucket_idem (t adv f : Int) :
    intradayBucket (intradayBucket t adv f) adv f = intradayBucket t adv f := by
  unfold intradayBucket
  have h := Int.fmod_add_fdiv (t - adv) f
  have h2 : t - Int.fmod (t - adv) f - adv = f * Int.fdiv (t - adv) f := by omega
  rw [h2, fmod_mul_self]
  omega

theorem truncMinute_idem (t : DateTime) : truncMinute (truncMinute t) = truncMinute t := rfl

/-- Strictly monotone linearization of the lexicographic datetime order
on valid datetimes (coarse month/day widths 12/31 suffice). -/
def dtIdx (t : DateTime) : Int :=
  ((((t.year * 12 + ((t.month : Int) - 1)) * 31 + ((t.day : Int) - 1)) * 24
    + (t.hour : Int)) * 60 + (t.minute : Int)) * 60 + (t.second : Int)

theorem dtLt_iff {a b : DateTime} (ha : a.Valid) (hb : b.Valid) :
    dtLt a b = true ↔ dtIdx a < dtIdx b := by
  obtain ⟨ha1, ha2, ha3, ha4, ha5, ha6, ha7, ha8, ha9⟩ := ha
  obtain ⟨hb1, hb2, hb3, hb4, hb5, hb6, hb7, hb8, hb9⟩ := hb
  unfold dtLt dtIdx
  split_ifs <;> simp only [decide_eq_true_eq] <;> omega

theorem dtLe_iff {a b : DateTime} (ha : a.Valid) (hb : b.Valid) :
    dtLe a b = true ↔ dtIdx a ≤ dtIdx b := by
  obtain ⟨ha1, ha2, ha3, ha4, ha5, ha6, ha7, ha8, ha9⟩ := ha
  obtain ⟨hb1, hb2, hb3, hb4, hb5, hb6, hb7, hb8, hb9⟩ := hb
  unfold dtLe dtIdx
  split_ifs <;> simp only [decide_eq_true_eq] <;> omega

theorem pyMinKey_mem (l : List DateTime) : ∀ a, pyMinKey a l ∈ a :: l := by
  induction l with
  | nil => intro a; simp [pyMinKey]
  | cons k rest ih =>
    intro a
    show pyMinKey (if dtLt k a then k else a) rest ∈ a :: k :: rest
    have h := ih (if dtLt k a then k else a)
    rcases List.mem_cons.mp h with h1 | h1
    · rw [h1]
      by_cases hc : dtLt k a = true <;> simp [hc]
    · simp [h1]

theorem pyMaxKey_mem (l : List DateTime) : ∀ a, pyMaxKey a l ∈ a :: l := by
  induction l with
  | nil => intro a; simp [pyMaxKey]
  | cons k rest ih =>
    intro a
    show pyMaxKey (if dtLt a k then k else a) rest ∈ a :: k :: rest
    have h := ih (if dtLt a k then k else a)
    rcases List.mem_cons.mp h with h1 | h1
    · rw [h1]
      by_cases hc : dtLt a k = true <;> simp [hc]
    · simp [h1]

theorem pyMinKey_le (l : List DateTime) :
    ∀ a, (∀ k ∈ a :: l, k.Valid) → ∀ k ∈ a :: l, dtIdx (pyMinKey a l) ≤ dtIdx k := by
  induction l with
  | nil =>
    intro a _ k hk
    simp only [List.mem_singleton] at hk
    simp [pyMinKey, hk]
  | cons k0 rest ih =>
    intro a hval k hk
    have hva : a.Valid := hval a (by simp)
    have hvk0 : k0.Valid := hval k0 (by simp)
    have hacc : (if dtLt k0 a then k0 else a).Valid := by
      by_cases hc : dtLt k0 a = true <;> simp [hc, hva, hvk0]
    have hval' : ∀ j ∈ (if dtLt k0 a then k0 else a) :: rest, j.Valid := by
      intro j hj
      rcases List.mem_cons.mp hj with h1 | h1
      · rw [h1]; exact hacc
      · exact hval j (by simp [h1])
    have hmin := ih (if dtLt k0 a then k0 else a) hval'
    show dtIdx (pyMinKey (if dtLt k0 a then k0 else a) rest) ≤ dtIdx k
    have hacc_le_a : dtIdx (if dtLt k0 a then k0 else a) ≤ dtIdx a := by
      by_cases hc : dtLt k0 a = true
      · simp only [hc, if_true]
        exact le_of_lt ((dtLt_iff hvk0 hva).mp hc)
      · simp [hc]
    have hacc_le_k0 : dtIdx (if dtLt k0 a then k0 else a) ≤ dtIdx k0 := by
      by_cases hc : dtLt k0 a = true
      · simp [hc]
      · rw [if_neg hc]
        have := (dtLt_iff hvk0 hva).not.mp (by simp [hc])
        omega
    have hhead := hmin _ (List.mem_cons_self _ _)
    rcases List.mem_cons.mp hk with h1 | h1
    · rw [h1]; exact le_trans hhead hacc_le_a
    · rcases List.mem_cons.mp h1 with h2 | h2
      · rw [h2]; exact le_trans hhead hacc_le_k0
      · exact hmin k (by simp [h2])

theorem pyMaxKey_ge (l : List DateTime) :
    ∀ a, (∀ k ∈ a :: l, k.Valid) → ∀ k ∈ a :: l, dtIdx k ≤ dtIdx (pyMaxKey a l) := by
  induction l with
  | nil =>
    intro a _ k hk
    simp only [List.mem_singleton] at hk
    simp [pyMaxKey, hk]
  | cons k0 rest ih =>
    intro a hval k hk
    have hva : a.Valid := hval a (by simp)
    have hvk0 : k0.Valid := hval k0 (by simp)
    have hacc : (if dtLt a k0 then k0 else a).Valid := by
      by_cases hc : dtLt a k0 = true <;> simp [hc, hva, hvk0]
    have hval' : ∀ j ∈ (if dtLt a k0 then k0 else a) :: rest, j.Valid := by
      intro j hj
      rcases List.mem_cons.mp hj with h1 | h1
      · rw [h1]; exact hacc
      · exact hval j (by simp [h1])
    have hmax := ih (if dtLt a k0 then k0 else a) hval'
    show dtIdx k ≤ dtIdx (pyMaxKey (if dtLt a k0 then k0 else a) rest)
    have ha_le_acc : dtIdx a ≤ dtIdx (if dtLt a k0 then k0 else a) := by
      by_cases hc : dtLt a k0 = true
      · simp only [hc, if_true]
        exact le_of_lt ((dtLt_iff hva hvk0).mp hc)
      · simp [hc]
    have hk0_le_acc : dtIdx k0 ≤ dtIdx (if dtLt a k0 then k0 else a) := by
      by_cases hc : dtLt a k0 = true
      · simp [hc]
      · rw [if_neg hc]
        have := (dtLt_iff hva hvk0).not.mp (by simp [hc])
        omega
    have hhead := hmax _ (List.mem_cons_self _ _)
    rcases List.mem_cons.mp hk with h1 | h1
    · rw [h1]; exact le_trans ha_le_acc hhead
    · rcases List.mem_cons.mp h1 with h2 | h2
      · rw [h2]; exact le_trans hk0_le_acc hhead
      · exact hmax k (by simp [h2])

theorem tsMinKey_mem (s : TimeSeries) (hne : s ≠ []) :
    tsMinKey s ∈ s.map Prod.fst := by
  cases s with
  | nil => exact absurd rfl hne
  | cons p rest =>
    have := pyMinKey_mem (rest.map Prod.fst) p.1
    simpa [tsMinKey] using this

theorem tsMaxKey_mem (s : TimeSeries) (hne : s ≠ []) :
    tsMaxKey s ∈ s.map Prod.fst := by
  cases s with
  | nil => exact absurd rfl hne
  | cons p rest =>
    have := pyMaxKey_mem (rest.map Prod.fst) p.1
    simpa [tsMaxKey] using this

theorem tsMinKey_le (s : TimeSeries) (hval : ∀ p ∈ s, (p.1 : DateTime).Valid) :
    ∀ p ∈ s, dtIdx (tsMinKey s) ≤ dtIdx p.1 := by
  intro p hp
  cases s with
  | nil => cases hp
  | cons q rest =>
    have hval' : ∀ k ∈ q.1 :: rest.map Prod.fst, k.Valid := by
      intro k hk
      rcases List.mem_cons.mp hk with h1 | h1
      · rw [h1]; exact hval q (by simp)
      · obtain ⟨r, hr, rfl⟩ := List.mem_map.mp h1
        exact hval r (by simp [hr])
    have hmem : p.1 ∈ q.1 :: rest.map Prod.fst := by
      rcases List.mem_cons.mp hp with h1 | h1
      · rw [h1]; exact List.mem_cons_self _ _
      · exact List.mem_cons_of_mem _ (List.mem_map.mpr ⟨p, h1, rfl⟩)
    exact pyMinKey_le (rest.map Prod.fst) q.1 hval' p.1 hmem

theorem tsMaxKey_ge (s : TimeSeries) (hval : ∀ p ∈ s, (p.1 : DateTime).Valid) :
    ∀ p ∈ s, dtIdx p.1 ≤ dtIdx (tsMaxKey s) := by
  intro p hp
  cases s with
  | nil => cases hp
  | cons q rest =>
    have hval' : ∀ k ∈ q.1 :: rest.map Prod.fst, k.Valid := by
      intro k hk
      rcases List.mem_cons.mp hk with h1 | h1
      · rw [h1]; exact hval q (by simp)
      · obtain ⟨r, hr, rfl⟩ := List.mem_map.mp h1
        exact hval r (by simp [hr])
    have hmem : p.1 ∈ q.1 :: rest.map Prod.fst := by
      rcases List.mem_cons.mp hp with h1 | h1
      · rw [h1]; exact List.mem_cons_self _ _
      · exact List.mem_cons_of_mem _ (List.mem_map.mpr ⟨p, h1, rfl⟩)
    exact pyMaxKey_ge (rest.map Prod.fst) q.1 hval' p.1 hmem

theorem tsMinKey_valid (s : TimeSeries) (hne : s ≠ []) (hval : ∀ p ∈ s, (p.1 : DateTime).Valid) :
    (tsMinKey s).Valid := by
  obtain ⟨p, hp, hpe⟩ := List.mem_map.mp (tsMinKey_mem s hne)
  rw [← hpe]; exact hval p hp

theorem tsMaxKey_valid (s : TimeSeries) (hne : s ≠ []) (hval : ∀ p ∈ s, (p.1 : DateTime).Valid) :
    (tsMaxKey s).Valid := by
  obtain ⟨p, hp, hpe⟩ := List.mem_map.mp (tsMaxKey_mem s hne)
  rw [← hpe]; exact hval p hp

theorem dtIdx_le_year {a b : DateTime} (ha : a.Valid) (hb : b.Valid)
    (h : dtIdx a ≤ dtIdx b) : a.year ≤ b.year := by
  obtain ⟨ha1, ha2, ha3, ha4, ha5, ha6, ha7, ha8, ha9⟩ := ha
  obtain ⟨hb1, hb2, hb3, hb4, hb5, hb6, hb7, hb8, hb9⟩ := hb
  unfold dtIdx at h
  omega

theorem dtIdx_le_mIdx {a b : DateTime} (ha : a.Valid) (hb : b.Valid)
    (h : dtIdx a ≤ dtIdx b) : mIdx a.year a.month ≤ mIdx b.year b.month := by
  obtain ⟨ha1, ha2, ha3, ha4, ha5, ha6, ha7, ha8, ha9⟩ := ha
  obtain ⟨hb1, hb2, hb3, hb4, hb5, hb6, hb7, hb8, hb9⟩ := hb
  unfold dtIdx at h
  unfold mIdx
  omega

theorem monthSeq_mIdx (begin : Int) (om : Nat) (hom1 : 1 ≤ om) (hom2 : om ≤ 12) (n : Nat) :
    mIdx (monthSeq begin om n).1 (monthSeq begin om n).2 = mIdx begin om + n := by
  unfold monthSeq mIdx
  split_ifs with h <;> simp only <;> omega

theorem monthSeq_month_bounds (begin : Int) (om : Nat) (hom1 : 1 ≤ om) (hom2 : om ≤ 12) (n : Nat) :
    1 ≤ (monthSeq begin om n).2 ∧ (monthSeq begin om n).2 ≤ 12 := by
  unfold monthSeq
  split_ifs with h <;> simp only <;> omega

theorem monthSeq_year_ge (begin : Int) (om : Nat) (n : Nat) :
    begin ≤ (monthSeq begin om n).1 := by
  unfold monthSeq
  split_ifs with h <;> simp only <;> omega

/-- Validity of `⟨y, m, 1, 0, 0, 0⟩` from field bounds. -/
theorem firstOfMonth_valid {y : Int} {m : Nat} (hy1 : 1 ≤ y) (hy2 : y ≤ 9999)
    (hm1 : 1 ≤ m) (hm2 : m ≤ 12) : DateTime.Valid ⟨y, m, 1, 0, 0, 0⟩ :=
  ⟨hy1, hy2, hm1, hm2, by simp, by simp, by simp, by simp, by simp⟩

theorem firstOfMonth_le_iff {nw : DateTime} (hnw : nw.Valid) {y : Int} {m : Nat}
    (hy1 : 1 ≤ y) (hy2 : y ≤ 9999) (hm1 : 1 ≤ m) (hm2 : m ≤ 12) :
    dtLe ⟨y, m, 1, 0, 0, 0⟩ nw = true ↔ mIdx y m ≤ mIdx nw.year nw.month := by
  rw [dtLe_iff (firstOfMonth_valid hy1 hy2 hm1 hm2) hnw]
  obtain ⟨hb1, hb2, hb3, hb4, hb5, hb6, hb7, hb8, hb9⟩ := hnw
  unfold dtIdx mIdx
  simp only
  omega

/-- One month-chain element passes the `datetime` constructor check and
satisfies the takewhile condition. -/
def monthOkTrue (nw : DateTime) (ym : Int × Nat) : Prop :=
  (1 ≤ ym.1 ∧ ym.1 ≤ 9999 ∧ 1 ≤ ym.2 ∧ ym.2 ≤ 12) ∧
    dtLe ⟨ym.1, ym.2, 1, 0, 0, 0⟩ nw = true

theorem monthTake_append (nw : DateTime) (l1 l2 : List (Int × Nat))
    (h : ∀ x ∈ l1, monthOkTrue nw x) :
    monthTake nw (l1 ++ l2) =
      match monthTake nw l2 with
      | .ok l => .ok (l1 ++ l)
      | .error e => .error e := by
  induction l1 with
  | nil =>
    simp only [List.nil_append]
    cases monthTake nw l2 <;> simp
  | cons x l1' ih =>
    obtain ⟨hpass, hcond⟩ := h x (by simp)
    have ih' := ih (fun y hy => h y (by simp [hy]))
    cases hres : monthTake nw l2 with
    | ok l =>
      rw [hres] at ih'
      simp only at ih'
      show monthTake nw (x :: l1' ++ l2) = Except.ok (x :: (l1' ++ l))
      simp only [List.cons_append]
      unfold monthTake
      rw [if_pos hpass, if_pos hcond, ih']
    | error e =>
      rw [hres] at ih'
      simp only at ih'
      show monthTake nw (x :: l1' ++ l2) = Except.error e
      simp only [List.cons_append]
      unfold monthTake
      rw [if_pos hpass, if_pos hcond, ih']

theorem monthTake_stop (nw : DateTime) (x : Int × Nat) (l2 : List (Int × Nat))
    (hpass : 1 ≤ x.1 ∧ x.1 ≤ 9999 ∧ 1 ≤ x.2 ∧ x.2 ≤ 12)
    (hc : dtLe ⟨x.1, x.2, 1, 0, 0, 0⟩ nw = false) :
    monthTake nw (x :: l2) = .ok [] := by
  unfold monthTake
  rw [if_pos hpass, if_neg (by simp [hc])]

/-- The month grid: the takewhile over the (sufficiently long prefix of
the) month chain returns exactly the months from the oldest month index
through the newest month index. -/
theorem monthGrid_eq (nw old : DateTime) (hold : old.Valid) (hnw : nw.Valid)
    (hle : mIdx old.year old.month ≤ mIdx nw.year nw.month)
    (hdec : nw.month = 12 → nw.year ≤ 9998) :
    monthTake nw ((List.range (12 * ((nw.year - old.year).toNat + 2))).map
        (monthSeq old.year old.month)) =
      .ok ((List.range (mIdx nw.year nw.month + 1 - mIdx old.year old.month).toNat).map
        (monthSeq old.year old.month)) := by
  obtain ⟨ho1, ho2, ho3, ho4, ho5, ho6, ho7, ho8, ho9⟩ := hold
  have hn' := hnw
  obtain ⟨hn1, hn2, hn3, hn4, hn5, hn6, hn7, hn8, hn9⟩ := hn'
  set base := mIdx old.year old.month with hbase
  set N := mIdx nw.year nw.month with hN
  set g := monthSeq old.year old.month with hg
  set K := (N + 1 - base).toNat with hK
  set B := 12 * ((nw.year - old.year).toNat + 2) with hB
  have hKi : (K : Int) = N + 1 - base := by
    rw [hK]
    have : (0 : Int) ≤ N + 1 - base := by omega
    omega
  have hyle : old.year ≤ nw.year := by
    rw [hbase, hN] at hle
    unfold mIdx at hle
    omega
  have hKB : K + 1 ≤ B := by
    rw [hB]
    have h1 : (K : Int) = N + 1 - base := hKi
    rw [hbase, hN] at h1
    unfold mIdx at h1
    omega
  -- facts about chain elements
  have helem : ∀ n : Nat, (n : Int) < (K : Int) → monthOkTrue nw (g n) := by
    intro n hn
    have hmb := monthSeq_month_bounds old.year old.month ho3 ho4 n
    have hyg := monthSeq_year_ge old.year old.month n
    have hmi := monthSeq_mIdx old.year old.month ho3 ho4 n
    rw [← hg] at hmb hyg hmi
    have hy1 : 1 ≤ (g n).1 := by omega
    have hle' : mIdx (g n).1 (g n).2 ≤ N := by omega
    have hy2 : (g n).1 ≤ 9999 := by
      rw [hN] at hle'
      unfold mIdx at hle'
      omega
    refine ⟨⟨hy1, hy2, hmb.1, hmb.2⟩, ?_⟩
    rw [firstOfMonth_le_iff hnw hy1 hy2 hmb.1 hmb.2]
    omega
  -- the stopping element
  have hstop_pass : 1 ≤ (g K).1 ∧ (g K).1 ≤ 9999 ∧ 1 ≤ (g K).2 ∧ (g K).2 ≤ 12 := by
    have hmb := monthSeq_month_bounds old.year old.month ho3 ho4 K
    have hyg := monthSeq_year_ge old.year old.month K
    have hmi := monthSeq_mIdx old.year old.month ho3 ho4 K
    rw [← hg] at hmb hyg hmi
    have hy1 : 1 ≤ (g K).1 := by omega
    have hy2 : (g K).1 ≤ 9999 := by
      have hgK : mIdx (g K).1 (g K).2 = N + 1 := by omega
      by_cases hm12 : nw.month = 12
      · have := hdec hm12
        rw [hN] at hgK
        unfold mIdx at hgK
        omega
      · rw [hN] at hgK
        unfold mIdx at hgK
        omega
    exact ⟨hy1, hy2, hmb.1, hmb.2⟩
  have hstop_cond : dtLe ⟨(g K).1, (g K).2, 1, 0, 0, 0⟩ nw = false := by
    have hmi := monthSeq_mIdx old.year old.month ho3 ho4 K
    rw [← hg] at hmi
    have := firstOfMonth_le_iff hnw hstop_pass.1 hstop_pass.2.1 hstop_pass.2.2.1 hstop_pass.2.2.2
    rw [Bool.eq_false_iff]
    intro hc
    have := this.mp hc
    omega
  -- split the range
  have hsplit : List.range B = List.range K ++ (List.range (B - K)).map (K + ·) := by
    have h1 := List.range_add K (B - K)
    rw [show K + (B - K) = B by omega] at h1
    exact h1
  rw [hsplit, List.map_append]
  rw [monthTake_append nw _ _ (by
    intro x hx
    obtain ⟨n, hn, rfl⟩ := List.mem_map.mp hx
    have hnK : n < K := List.mem_range.mp hn
    exact helem n (by exact_mod_cast hnK))]
  obtain ⟨t, ht⟩ : ∃ t, B - K = t + 1 := ⟨B - K - 1, by omega⟩
  rw [ht, List.range_succ_eq_map]
  simp only [List.map_cons, List.map_map]
  rw [monthTake_stop nw _ _ (by simpa using hstop_pass) (by simpa using hstop_cond)]
  simp

theorem bump_keys {l l' : List (Int × Nat)} {k : Int} {a : Nat}
    (h : bump l k a = some l') : l'.map Prod.fst = l.map Prod.fst := by
  induction l generalizing l' with
  | nil => exact Option.noConfusion h
  | cons p rest ih =>
    obtain ⟨k0, c⟩ := p
    by_cases hk : k0 = k
    · simp only [bump, if_pos hk] at h
      cases h
      simp
    · simp only [bump, if_neg hk] at h
      cases hres : bump rest k a with
      | none => rw [hres] at h; simp at h
      | some r =>
        rw [hres] at h
        simp at h
        subst h
        simp [ih hres]

theorem bump_some_of_mem {l : List (Int × Nat)} {k : Int} (a : Nat)
    (h : k ∈ l.map Prod.fst) : ∃ l', bump l k a = some l' := by
  induction l with
  | nil => simp at h
  | cons p rest ih =>
    obtain ⟨k0, c⟩ := p
    by_cases hk : k0 = k
    · refine ⟨(k0, c + a) :: rest, ?_⟩
      simp [bump, if_pos hk]
    · simp only [List.map_cons, List.mem_cons] at h
      rcases h with h1 | h1
      · exact absurd h1.symm hk
      · obtain ⟨r, hr⟩ := ih h1
        refine ⟨(k0, c) :: r, ?_⟩
        simp [bump, if_neg hk, hr]

theorem bumpTry_keys (l : List (Int × Nat)) (k : Int) (a : Nat) :
    (bumpTry l k a).map Prod.fst = l.map Prod.fst := by
  unfold bumpTry
  cases hres : bump l k a with
  | none => rfl
  | some r => exact bump_keys hres

theorem statStep_ok (interval advSec : Int) (st : Stats) (p : DateTime × Nat)
    (hy : (p.1 : DateTime).year ∈ st.yearly.map Prod.fst)
    (hmo : mIdx p.1.year p.1.month ∈ st.monthly.map Prod.fst)
    (hbk : secLo ≤ intradayBucket (toSec p.1) advSec interval ∧
      intradayBucket (toSec p.1) advSec interval ≤ secHi) :
    ∃ st1, statStep interval advSec st p = .ok st1 ∧
      st1.yearly.map Prod.fst = st.yearly.map Prod.fst ∧
      st1.monthly.map Prod.fst = st.monthly.map Prod.fst ∧
      st1.dayly.map Prod.fst = st.dayly.map Prod.fst ∧
      st1.hourly.map Prod.fst = st.hourly.map Prod.fst := by
  obtain ⟨y1, hy1⟩ := bump_some_of_mem p.2 hy
  obtain ⟨m1, hm1⟩ := bump_some_of_mem p.2 hmo
  refine ⟨⟨bumpTry st.hourly (intradayBucket (toSec p.1) advSec interval) p.2,
      bumpTry st.dayly (civilDays p.1) p.2, m1, y1⟩, ?_, ?_, ?_, ?_, ?_⟩
  · unfold statStep
    rw [hy1]
    simp only
    rw [hm1]
    simp only
    rw [if_pos hbk]
  · exact bump_keys hy1
  · exact bump_keys hm1
  · exact bumpTry_keys _ _ _
  · exact bumpTry_keys _ _ _

theorem foldlM_statStep_ok (interval advSec : Int) :
    ∀ (s : List (DateTime × Nat)) (st : Stats),
      (∀ p ∈ s, (p.1 : DateTime).year ∈ st.yearly.map Prod.fst) →
      (∀ p ∈ s, mIdx p.1.year p.1.month ∈ st.monthly.map Prod.fst) →
      (∀ p ∈ s, secLo ≤ intradayBucket (toSec p.1) advSec interval ∧
        intradayBucket (toSec p.1) advSec interval ≤ secHi) →
      ∃ st', s.foldlM (statStep interval advSec) st = .ok st' ∧
        st'.yearly.map Prod.fst = st.yearly.map Prod.fst ∧
        st'.monthly.map Prod.fst = st.monthly.map Prod.fst ∧
        st'.dayly.map Prod.fst = st.dayly.map Prod.fst ∧
        st'.hourly.map Prod.fst = st.hourly.map Prod.fst := by
  intro s
  induction s with
  | nil =>
    intro st _ _ _
    exact ⟨st, rfl, rfl, rfl, rfl, rfl⟩
  | cons p rest ih =>
    intro st hy hmo hbk
    obtain ⟨st1, hst1, e1, e2, e3, e4⟩ :=
      statStep_ok interval advSec st p (hy p (by simp)) (hmo p (by simp)) (hbk p (by simp))
    obtain ⟨st', hst', f1, f2, f3, f4⟩ := ih st1
      (fun q hq => by rw [e1]; exact hy q (by simp [hq]))
      (fun q hq => by rw [e2]; exact hmo q (by simp [hq]))
      (fun q hq => hbk q (by simp [hq]))
    refine ⟨st', ?_, by rw [f1, e1], by rw [f2, e2], by rw [f3, e3], by rw [f4, e4]⟩
    rw [List.foldlM_cons, hst1]
    simpa using hst'

/-- An arithmetic progression of bucket keys: `n` keys starting at `c`
with stride `step`. -/
def affineKeys (c step : Int) (n : Nat) : List Int :=
  (List.range n).map (fun i : Nat => c + step * (i : Int))

theorem mem_affineKeys_one (c : Int) (n : Nat) (k : Int) :
    k ∈ affineKeys c 1 n ↔ c ≤ k ∧ k < c + (n : Int) := by
  unfold affineKeys
  rw [List.mem_map]
  constructor
  · rintro ⟨i, hi, rfl⟩
    rw [List.mem_range] at hi
    omega
  · rintro ⟨h1, h2⟩
    refine ⟨(k - c).toNat, ?_, ?_⟩
    · rw [List.mem_range]
      omega
    · omega

theorem affineKeys_length (c step : Int) (n : Nat) : (affineKeys c step n).length = n := by
  simp [affineKeys]

theorem affineKeys_chain' (c step : Int) (n : Nat) :
    List.Chain' (fun a b => b = a + step) (affineKeys c step n) := by
  unfold affineKeys
  rw [List.chain'_map]
  cases n with
  | zero => simp
  | succ t =>
    rw [List.chain'_range_succ]
    intro m _
    push_cast
    ring

theorem affineKeys_head? (c step : Int) (n : Nat) (hn : 0 < n) :
    (affineKeys c step n).head? = some c := by
  unfold affineKeys
  obtain ⟨t, rfl⟩ : ∃ t, n = t + 1 := ⟨n - 1, by omega⟩
  rw [List.range_succ_eq_map]
  simp

theorem affineKeys_getLast? (c step : Int) (n : Nat) (hn : 0 < n) :
    (affineKeys c step n).getLast? = some (c + step * ((n : Int) - 1)) := by
  unfold affineKeys
  obtain ⟨t, rfl⟩ : ∃ t, n = t + 1 := ⟨n - 1, by omega⟩
  rw [List.range_succ, List.map_append]
  rw [List.getLast?_append]
  simp

/-- Reversing a descending arithmetic progression yields the ascending
one starting at its smallest element. -/
theorem rev_desc (n : Nat) (a step : Int) :
    ((List.range n).map (fun i : Nat => a - step * (i : Int))).reverse =
      affineKeys (a - step * ((n : Int) - 1)) step n := by
  induction n with
  | zero => simp [affineKeys]
  | succ t ih =>
    rw [List.range_succ, List.map_append, List.reverse_append]
    simp only [List.map_cons, List.map_nil, List.reverse_cons, List.reverse_nil,
      List.nil_append, List.singleton_append]
    rw [ih]
    unfold affineKeys
    rw [List.range_succ_eq_map]
    simp only [List.map_cons, List.map_map]
    congr 1
    · push_cast
      ring
    · apply List.map_congr_left
      intro i _
      simp only [Function.comp_apply]
      push_cast
      ring


theorem yearlyKeys_eq (Yo YN : Int) :
    ((intRange (YN + 1 - Yo)).map (fun i => (Yo + i, (0 : Nat)))).map Prod.fst
      = affineKeys Yo 1 (YN + 1 - Yo).toNat := by
  unfold intRange affineKeys
  rw [List.map_map, List.map_map]
  apply List.map_congr_left
  intro i _
  simp

theorem monthlyKeys_eq (b : Int) (om : Nat) (hom1 : 1 ≤ om) (hom2 : om ≤ 12) (K : Nat) :
    (((List.range K).map (monthSeq b om)).map
        (fun ym => (mIdx ym.1 ym.2, (0 : Nat)))).map Prod.fst
      = affineKeys (mIdx b om) 1 K := by
  rw [List.map_map, List.map_map]
  unfold affineKeys
  apply List.map_congr_left
  intro n _
  simp only [Function.comp_apply]
  rw [monthSeq_mIdx b om hom1 hom2 n]
  ring

theorem daylyKeys_eq (refD dd : Int) :
    ((intRange dd).reverse.map (fun off => (refD - off, (0 : Nat)))).map Prod.fst
      = affineKeys (refD - (dd - 1)) 1 dd.toNat := by
  rw [List.map_map, List.map_reverse]
  unfold intRange
  rw [List.map_map]
  rw [List.map_congr_left (g := fun i : Nat => refD - 1 * (i : Int)) (by intro i _; simp)]
  rw [rev_desc]
  by_cases hdd : 0 < dd
  · congr 1
    omega
  · have h0 : dd.toNat = 0 := by omega
    rw [h0]
    rfl

theorem hourlyKeys_eq (advS interval buckets : Int) (hb : 0 < buckets) :
    ((intRange buckets).reverse.map (fun i => (advS - i * interval, (0 : Nat)))).map Prod.fst
      = affineKeys (advS - interval * (buckets - 1)) interval buckets.toNat := by
  rw [List.map_map, List.map_reverse]
  unfold intRange
  rw [List.map_map]
  rw [List.map_congr_left (g := fun i : Nat => advS - interval * (i : Int))
    (by intro i _; simp [mul_comm])]
  rw [rev_desc]
  congr 1
  rw [show ((buckets.toNat : Nat) : Int) = buckets by omega]

/-- Master lemma: on a non-empty store of valid keys whose month grid
stays inside the datetime year range, with an in-range reference, window
and positive interval, `generate_statistics` succeeds and each of the
four series carries exactly its dense ascending grid of keys. -/
theorem generate_statistics_ok
    (s : TimeSeries) (r : DateTime) (dd mi : Int)
    (hne : s ≠ [])
    (hval : ∀ p ∈ s, (p.1 : DateTime).Valid)
    (hdec : (tsMaxKey s).month = 12 → (tsMaxKey s).year ≤ 9998)
    (hadv : advancedReference (truncMinute r) ≤ secHi)
    (hday : ¬(0 < dd ∧ civilDays (truncMinute r) - (dd - 1) < dayMin))
    (hmi : 0 < mi)
    (hbkt : secLo ≤ advancedReference (truncMinute r) -
      Int.tdiv 86400 (60 * mi) * (60 * mi))
    (hev : ∀ p ∈ s, secLo + 60 * mi ≤ toSec p.1 ∧ toSec p.1 ≤ secHi) :
    ∃ st, generate_statistics s r dd mi = .ok st ∧
      st.yearly.map Prod.fst =
        affineKeys (tsMinKey s).year 1 ((tsMaxKey s).year + 1 - (tsMinKey s).year).toNat ∧
      st.monthly.map Prod.fst =
        affineKeys (mIdx (tsMinKey s).year (tsMinKey s).month) 1
          (mIdx (tsMaxKey s).year (tsMaxKey s).month + 1
            - mIdx (tsMinKey s).year (tsMinKey s).month).toNat ∧
      st.dayly.map Prod.fst =
        affineKeys (civilDays (truncMinute r) - (dd - 1)) 1 dd.toNat ∧
      st.hourly.map Prod.fst =
        affineKeys (advancedReference (truncMinute r)
            - 60 * mi * Int.tdiv 86400 (60 * mi)) (60 * mi)
          (Int.tdiv 86400 (60 * mi) + 1).toNat := by
  have hvalO := tsMinKey_valid s hne hval
  have hvalN := tsMaxKey_valid s hne hval
  obtain ⟨p0, hp0⟩ : ∃ p, p ∈ s := by
    cases s with
    | nil => exact absurd rfl hne
    | cons q rest => exact ⟨q, by simp⟩
  have hON : dtIdx (tsMinKey s) ≤ dtIdx (tsMaxKey s) :=
    le_trans (tsMinKey_le s hval p0 hp0) (tsMaxKey_ge s hval p0 hp0)
  have hmle : mIdx (tsMinKey s).year (tsMinKey s).month
      ≤ mIdx (tsMaxKey s).year (tsMaxKey s).month := dtIdx_le_mIdx hvalO hvalN hON
  have hyle : (tsMinKey s).year ≤ (tsMaxKey s).year := dtIdx_le_year hvalO hvalN hON
  have hmt := monthGrid_eq (tsMaxKey s) (tsMinKey s) hvalO hvalN hmle hdec
  have hintc : ¬(60 * mi = 0) := by omega
  have htdnn : 0 ≤ Int.tdiv 86400 (60 * mi) := Int.tdiv_nonneg (by omega) (by omega)
  have hmulnn : 0 ≤ Int.tdiv 86400 (60 * mi) * (60 * mi) :=
    mul_nonneg htdnn (by omega)
  have hb1 : Int.tdiv 86400 (60 * mi) + 1 - 1 = Int.tdiv 86400 (60 * mi) := by omega
  have hbchk : ¬(0 < Int.tdiv 86400 (60 * mi) + 1 ∧
      ¬(secLo ≤ advancedReference (truncMinute r)
          - (Int.tdiv 86400 (60 * mi) + 1 - 1) * (60 * mi) ∧
        advancedReference (truncMinute r)
          - (Int.tdiv 86400 (60 * mi) + 1 - 1) * (60 * mi) ≤ secHi)) := by
    rw [hb1]
    push_neg
    intro hpos
    exact ⟨hbkt, by omega⟩
  -- closed forms of the four grids
  have hkY := yearlyKeys_eq (tsMinKey s).year (tsMaxKey s).year
  have hkM := monthlyKeys_eq (tsMinKey s).year (tsMinKey s).month
    hvalO.2.2.1 hvalO.2.2.2.1
    (mIdx (tsMaxKey s).year (tsMaxKey s).month + 1
      - mIdx (tsMinKey s).year (tsMinKey s).month).toNat
  have hkD := daylyKeys_eq (civilDays (truncMinute r)) dd
  have hkH := hourlyKeys_eq (advancedReference (truncMinute r)) (60 * mi)
    (Int.tdiv 86400 (60 * mi) + 1) (by omega)
  -- per-event facts for the single pass
  have hymem : ∀ p ∈ s, (p.1 : DateTime).year ∈
      (((intRange ((tsMaxKey s).year + 1 - (tsMinKey s).year)).map
        (fun i => ((tsMinKey s).year + i, (0 : Nat))))).map Prod.fst := by
    intro p hp
    rw [hkY, mem_affineKeys_one]
    have h1 := dtIdx_le_year hvalO (hval p hp) (tsMinKey_le s hval p hp)
    have h2 := dtIdx_le_year (hval p hp) hvalN (tsMaxKey_ge s hval p hp)
    omega
  have hmomem : ∀ p ∈ s, mIdx p.1.year p.1.month ∈
      (((List.range (mIdx (tsMaxKey s).year (tsMaxKey s).month + 1
          - mIdx (tsMinKey s).year (tsMinKey s).month).toNat).map
        (monthSeq (tsMinKey s).year (tsMinKey s).month)).map
          (fun ym => (mIdx ym.1 ym.2, (0 : Nat)))).map Prod.fst := by
    intro p hp
    rw [hkM, mem_affineKeys_one]
    have h1 := dtIdx_le_mIdx hvalO (hval p hp) (tsMinKey_le s hval p hp)
    have h2 := dtIdx_le_mIdx (hval p hp) hvalN (tsMaxKey_ge s hval p hp)
    omega
  have hbkmem : ∀ p ∈ s,
      secLo ≤ intradayBucket (toSec p.1) (advancedReference (truncMinute r)) (60 * mi) ∧
      intradayBucket (toSec p.1) (advancedReference (truncMinute r)) (60 * mi) ≤ secHi := by
    intro p hp
    have he := hev p hp
    unfold intradayBucket
    have hf1 : 0 ≤ Int.fmod (toSec p.1 - advancedReference (truncMinute r)) (60 * mi) :=
      Int.fmod_nonneg' _ (by omega)
    have hf2 : Int.fmod (toSec p.1 - advancedReference (truncMinute r)) (60 * mi) < 60 * mi :=
      Int.fmod_lt_of_pos _ (by omega)
    omega
  obtain ⟨st', hfold, f1, f2, f3, f4⟩ :=
    foldlM_statStep_ok (60 * mi) (advancedReference (truncMinute r)) s
      ⟨(intRange (Int.tdiv 86400 (60 * mi) + 1)).reverse.map
          (fun i => (advancedReference (truncMinute r) - i * (60 * mi), 0)),
        (intRange dd).reverse.map
          (fun offset => (civilDays (truncMinute r) - offset, 0)),
        ((List.range (mIdx (tsMaxKey s).year (tsMaxKey s).month + 1
            - mIdx (tsMinKey s).year (tsMinKey s).month).toNat).map
          (monthSeq (tsMinKey s).year (tsMinKey s).month)).map
            (fun ym => (mIdx ym.1 ym.2, 0)),
        (intRange ((tsMaxKey s).year + 1 - (tsMinKey s).year)).map
          (fun i => ((tsMinKey s).year + i, 0))⟩
      hymem hmomem hbkmem
  refine ⟨st', ?_, ?_, ?_, ?_, ?_⟩
  · unfold generate_statistics
    rw [if_neg (by simp [hne] : ¬(s.isEmpty = true))]
    rw [if_neg (by omega : ¬(secHi < advancedReference (truncMinute r)))]
    simp only [hmt]
    rw [if_neg hday, if_neg hintc, if_neg hbchk]
    exact hfold
  · rw [f1]
    exact hkY
  · rw [f2]
    exact hkM
  · rw [f3]
    exact hkD
  · rw [f4, hkH, hb1]

/-- Scaling: `int(86400.0 / (60*mi))` equals `1440 // mi` for positive
`mi` (both quotients of nonnegative integers). -/
theorem tdiv_86400_scale (mi : Int) (hmi : 0 < mi) :
    Int.tdiv 86400 (60 * mi) = Int.tdiv 1440 mi := by
  rw [Int.tdiv_eq_ediv (by omega) (by omega), Int.tdiv_eq_ediv (by omega) (by omega)]
  rw [show (86400 : Int) = 60 * 1440 by norm_num]
  exact Int.mul_ediv_mul_of_pos 1440 mi (by omega)

/-- One-event demonstration store: a single comment at
2020-05-10 10:03. -/
def demoTS : TimeSeries := [(⟨2020, 5, 10, 10, 3, 0⟩, 1)]

/-- A reference instant with seconds, truncating to 2020-05-10 10:03. -/
def demoRef : DateTime := ⟨2020, 5, 10, 10, 3, 45⟩

/-- Store with one event late on the reference day. -/
def demoLate : TimeSeries := [(⟨2020, 5, 10, 23, 59, 0⟩, 1)]

/-- Store with events only in 2020 and 2023. -/
def demoTwoYears : TimeSeries := [(⟨2020, 6, 1, 10, 0, 0⟩, 3), (⟨2023, 2, 3, 4, 5, 0⟩, 5)]

/-- C3: deserializing the serialization of any store reproduces exactly
the same key→count mapping — identical counts for every stored key and
no other keys.  (`pickle`/`unpickle` are modelled from the spec: they
are called from `__init__.py` but not defined under `src/`.) -/
theorem claim_C3 (s : TimeSeries) :
    ∃ s', deserialize (serialize s) = some s' ∧
      (∀ k, tsGet s' k = tsGet s k) ∧ s'.map Prod.fst = s.map Prod.fst :=
  ⟨s, deserialize_serialize s, fun _ => rfl, rfl⟩

/-- C5: aggregating an empty store fails with the empty-data error for
every reference instant and configuration, and so do `min()` and
`max()` on an empty store. -/
theorem claim_C5 :
    (∀ (r : DateTime) (dd mi : Int),
      generate_statistics [] r dd mi = .error .emptyData) ∧
    tsMin [] = .error .emptyData ∧ tsMax [] = .error .emptyData :=
  ⟨fun _ _ _ => rfl, rfl, rfl⟩

/-- C6: `parse_new_time` first parses the raw string; on success it
increments by exactly one the count of the parsed instant truncated to
the minute and changes no other key; on a parse failure it raises
`ParseError` and leaves every count unchanged. -/
theorem claim_C6 (s : TimeSeries) (raw : String) :
    (strptimeDefault raw = none →
      parse_new_time s raw = (some .parseError, s) ∧
        ∀ k, tsGet (parse_new_time s raw).2 k = tsGet s k) ∧
    (∀ t, strptimeDefault raw = some t →
      (parse_new_time s raw).1 = none ∧
      tsGet (parse_new_time s raw).2 (truncMinute t) = tsGet s (truncMinute t) + 1 ∧
      ∀ k, k ≠ truncMinute t → tsGet (parse_new_time s raw).2 k = tsGet s k) := by
  constructor
  · intro h
    unfold parse_new_time
    rw [h]
    exact ⟨rfl, fun _ => rfl⟩
  · intro t h
    unfold parse_new_time
    rw [h]
    exact ⟨rfl, tsGet_tsIncr_same s (truncMinute t),
      fun k hk => tsGet_tsIncr_other s _ k hk⟩

theorem claim_C6_witness :
    (parse_new_time [] "2020-01-01T10:00:05+0000").1 = none ∧
    tsGet (parse_new_time [] "2020-01-01T10:00:05+0000").2 ⟨2020, 1, 1, 10, 0, 0⟩ = 0 + 1 ∧
    parse_new_time [] "not-a-date" = (some .parseError, []) := by
  have h1 := (claim_C6 [] "2020-01-01T10:00:05+0000").2 ⟨2020, 1, 1, 10, 0, 5⟩ (by rfl)
  have h2 := (claim_C6 [] "not-a-date").1 (by rfl)
  exact ⟨h1.1, h1.2.1, h2.1⟩

/-- C8: truncation is idempotent: re-truncating a minute-truncated
instant changes nothing, and re-flooring an interval-floored instant
onto the same grid (any anchor, any frequency) changes nothing. -/
theorem claim_C8 :
    (∀ t : DateTime, truncMinute (truncMinute t) = truncMinute t) ∧
    (∀ t adv f : Int,
      intradayBucket (intradayBucket t adv f) adv f = intradayBucket t adv f) :=
  ⟨truncMinute_idem, intradayBucket_idem⟩

/-- C9 (counterexample): the spec's example strings lack the `+0000`
suffix demanded by the program's fixed timestamp format, so inserting
them raises `ParseError` and lands in no bucket at all. -/
theorem claim_C9_counterexample :
    parse_new_time [] "2020-01-01T10:00:05" = (some .parseError, []) ∧
    parse_new_time [] "2020-01-01T10:00:59" = (some .parseError, []) :=
  ⟨rfl, rfl⟩

/-- C9 (amended): any two raw strings that do parse and whose instants
agree up to the minute increment the same minute bucket, whose count
then includes both events; the example strings need the `+0000`
suffix. -/
theorem claim_C9 (s : TimeSeries) (raw1 raw2 : String) (t1 t2 : DateTime)
    (h1 : strptimeDefault raw1 = some t1) (h2 : strptimeDefault raw2 = some t2)
    (hsame : truncMinute t1 = truncMinute t2) :
    tsGet (parse_new_time (parse_new_time s raw1).2 raw2).2 (truncMinute t1)
      = tsGet s (truncMinute t1) + 2 := by
  unfold parse_new_time
  rw [h1]
  simp only
  rw [h2]
  simp only
  rw [hsame, tsGet_tsIncr_same, ← hsame, tsGet_tsIncr_same]

theorem claim_C9_witness :
    tsGet (parse_new_time (parse_new_time [] "2020-01-01T10:00:05+0000").2
        "2020-01-01T10:00:59+0000").2 ⟨2020, 1, 1, 10, 0, 0⟩
      = 0 + 2 :=
  claim_C9 [] "2020-01-01T10:00:05+0000" "2020-01-01T10:00:59+0000"
    ⟨2020, 1, 1, 10, 0, 5⟩ ⟨2020, 1, 1, 10, 0, 59⟩ (by rfl) (by rfl) (by rfl)

/-- C7: aggregation never mutates the store: any sequence of
aggregation calls leaves the store, its `min()`, its `max()` and every
per-key count unchanged, and each call's output is the pure function of
the store and that call's own arguments, independent of the other
calls. -/
theorem claim_C7 (s : TimeSeries) (_hne : s ≠ []) (calls : List (DateTime × Int × Int)) :
    (runCalls s calls).1 = s ∧
    (runCalls s calls).2 = calls.map (fun a => generate_statistics s a.1 a.2.1 a.2.2) ∧
    tsMin (runCalls s calls).1 = tsMin s ∧
    tsMax (runCalls s calls).1 = tsMax s ∧
    ∀ k, tsGet (runCalls s calls).1 k = tsGet s k := by
  have key : ∀ (cs : List (DateTime × Int × Int)) (st : TimeSeries),
      (runCalls st cs).1 = st ∧
      (runCalls st cs).2 = cs.map (fun a => generate_statistics st a.1 a.2.1 a.2.2) := by
    intro cs
    induction cs with
    | nil => intro st; exact ⟨rfl, rfl⟩
    | cons a rest ih =>
      intro st
      obtain ⟨ha, hb⟩ := ih st
      refine ⟨?_, ?_⟩
      · show (runCalls st (a :: rest)).1 = st
        simpa [runCalls, generate_statistics_call] using ha
      · simp [runCalls, generate_statistics_call, hb]
  obtain ⟨h1, h2⟩ := key calls s
  exact ⟨h1, h2, by rw [h1], by rw [h1], fun k => by rw [h1]⟩

theorem claim_C7_witness :
    (runCalls demoTS [(demoRef, 31, 20), (⟨2021, 1, 1, 0, 0, 0⟩, 15, 7)]).1 = demoTS ∧
    (runCalls demoTS [(demoRef, 31, 20), (⟨2021, 1, 1, 0, 0, 0⟩, 15, 7)]).2 =
      [(demoRef, 31, 20), (⟨2021, 1, 1, 0, 0, 0⟩, 15, 7)].map
        (fun a => generate_statistics demoTS a.1 a.2.1 a.2.2) ∧
    tsMin (runCalls demoTS [(demoRef, 31, 20), (⟨2021, 1, 1, 0, 0, 0⟩, 15, 7)]).1
      = tsMin demoTS ∧
    tsMax (runCalls demoTS [(demoRef, 31, 20), (⟨2021, 1, 1, 0, 0, 0⟩, 15, 7)]).1
      = tsMax demoTS ∧
    ∀ k, tsGet (runCalls demoTS [(demoRef, 31, 20), (⟨2021, 1, 1, 0, 0, 0⟩, 15, 7)]).1 k
      = tsGet demoTS k :=
  claim_C7 demoTS (by decide) [(demoRef, 31, 20), (⟨2021, 1, 1, 0, 0, 0⟩, 15, 7)]

/-- C1 (counterexample): with the reference 2020-05-10 10:03:45
(truncating to 10:03) and a 20-minute interval, the stored event at
10:03 is not counted in a bucket starting at
`reference + floor((t − reference)/interval)·interval` = 10:03 — no
such bucket key exists — but in the bucket starting 09:44, because the
grid is anchored one minute past the truncated reference. -/
theorem claim_C1_counterexample :
    (generate_statistics demoTS demoRef 31 20).toOption.map
        (fun st => (seriesCount st.hourly (toSec (truncMinute demoRef)
            + 1200 * Int.fdiv (toSec ⟨2020, 5, 10, 10, 3, 0⟩ - toSec (truncMinute demoRef)) 1200),
          seriesCount st.hourly (toSec ⟨2020, 5, 10, 9, 44, 0⟩)))
      = some (none, some 1) := by decide

/-- C1 (amended): every stored event is counted in the bucket whose
start is `adv + floor((t − adv)/interval)·interval` where `adv` is the
advanced reference (truncated reference + 1 minute, + 1 day at
midnight); a 10:03:45 reference with a 20-minute interval yields the
intraday starts …09:44, 10:04, 10:24… (one minute past the claimed
…09:43, 10:03, 10:23…), still never aligned to clock-hour
boundaries. -/
theorem claim_C1 :
    (∀ t adv interval : Int, 0 < interval →
      intradayBucket t adv interval
        = adv + interval * Int.fdiv (t - adv) interval) ∧
    (generate_statistics demoTS demoRef 31 20).toOption.map
        (fun st => st.hourly.map Prod.fst)
      = some (affineKeys (toSec ⟨2020, 5, 9, 10, 4, 0⟩) 1200 73) ∧
    (∀ k ∈ affineKeys (toSec ⟨2020, 5, 9, 10, 4, 0⟩) 1200 73, k % 3600 ≠ 0) := by
  refine ⟨?_, by decide, by decide⟩
  intro t adv interval _
  unfold intradayBucket
  have h := Int.fmod_add_fdiv (t - adv) interval
  omega

theorem claim_C1_witness :
    intradayBucket 127 40 20 = 40 + 20 * Int.fdiv (127 - 40) 20 :=
  claim_C1.1 127 40 20 (by decide)

/-- C2 (counterexample): aggregating a store with `windowDays = -1`
does not fail at all — there is no `InvalidConfigError` anywhere in the
code — it succeeds with an empty daily series. -/
theorem claim_C2_counterexample :
    (generate_statistics demoTS demoRef (-1) 20).toOption.map Stats.dayly = some [] := by
  decide

/-- C2 (amended): the aggregator performs no configuration validation.
`intervalMinutes = 0` fails with a division-by-zero error (after the
grids preceding the interval computation are built, given an in-range
store and reference); negative `windowDays` and negative
`intervalMinutes` do not fail — they yield an empty daily respectively
empty intraday series; on an empty store the empty-data error takes
precedence over everything. -/
theorem claim_C2 :
    (∀ (r : DateTime) (dd mi : Int),
      generate_statistics [] r dd mi = .error .emptyData) ∧
    (∀ (s : TimeSeries) (r : DateTime) (dd : Int), s ≠ [] →
      (∀ p ∈ s, (p.1 : DateTime).Valid) →
      ((tsMaxKey s).month = 12 → (tsMaxKey s).year ≤ 9998) →
      advancedReference (truncMinute r) ≤ secHi →
      ¬(0 < dd ∧ civilDays (truncMinute r) - (dd - 1) < dayMin) →
      generate_statistics s r dd 0 = .error .zeroDivision) ∧
    (generate_statistics demoTS demoRef (-1) 20).toOption.map Stats.dayly = some [] ∧
    (generate_statistics demoTS demoRef 31 (-5)).toOption.map Stats.hourly = some [] := by
  refine ⟨fun _ _ _ => rfl, ?_, by decide, by decide⟩
  intro s r dd hne hval hdec hadv hday
  have hvalO := tsMinKey_valid s hne hval
  have hvalN := tsMaxKey_valid s hne hval
  obtain ⟨p0, hp0⟩ : ∃ p, p ∈ s := by
    cases s with
    | nil => exact absurd rfl hne
    | cons q rest => exact ⟨q, by simp⟩
  have hON : dtIdx (tsMinKey s) ≤ dtIdx (tsMaxKey s) :=
    le_trans (tsMinKey_le s hval p0 hp0) (tsMaxKey_ge s hval p0 hp0)
  have hmle : mIdx (tsMinKey s).year (tsMinKey s).month
      ≤ mIdx (tsMaxKey s).year (tsMaxKey s).month := dtIdx_le_mIdx hvalO hvalN hON
  have hmt := monthGrid_eq (tsMaxKey s) (tsMinKey s) hvalO hvalN hmle hdec
  unfold generate_statistics
  rw [if_neg (by simp [hne] : ¬(s.isEmpty = true))]
  rw [if_neg (by omega : ¬(secHi < advancedReference (truncMinute r)))]
  simp only [hmt]
  rw [if_neg hday]
  rw [if_pos (by norm_num : (60 : Int) * 0 = 0)]

theorem claim_C2_witness :
    generate_statistics demoTS demoRef 31 0 = .error .zeroDivision ∧
    generate_statistics [] demoRef 31 0 = .error .emptyData :=
  ⟨claim_C2.2.1 demoTS demoRef 31 (by decide) (by decide) (by decide)
      (by decide) (by decide),
    claim_C2.1 demoRef 31 0⟩

/-- C10 (counterexample): the daily window does not end one minute
after the reference: with the reference at 2020-05-10 10:03, an event
at 23:59 the same day — more than 60 seconds later — is still counted
in the daily series, because the daily grid is keyed by calendar date
and anchored at the reference's date, unaffected by the one-minute
advancement. -/
theorem claim_C10_counterexample :
    (generate_statistics demoLate ⟨2020, 5, 10, 10, 3, 0⟩ 31 20).toOption.map
        (fun st => seriesCount st.dayly (daysFromCivil 2020 5 10)) = some (some 1) ∧
    60 < toSec ⟨2020, 5, 10, 23, 59, 0⟩ - toSec ⟨2020, 5, 10, 10, 3, 0⟩ :=
  ⟨by decide, by decide⟩

/-- C10 (amended): a minute-truncated reference at midnight advances
the intraday anchor by one full day — so (for an interval dividing one
day) the intraday window covers exactly the reference's calendar day —
and any other reference advances it by exactly one minute, so the
intraday window ends one minute after the reference; the daily window
is keyed by calendar date and always ends at the reference's own date,
unaffected by the advancement. -/
theorem claim_C10 :
    (∀ r : DateTime, r.hour = 0 ∧ r.minute = 0 →
      advancedReference r = toSec r + 86400) ∧
    (∀ r : DateTime, ¬(r.hour = 0 ∧ r.minute = 0) →
      advancedReference r = toSec r + 60) ∧
    (∀ (s : TimeSeries) (r : DateTime) (dd mi : Int),
      s ≠ [] → (∀ p ∈ s, (p.1 : DateTime).Valid) →
      ((tsMaxKey s).month = 12 → (tsMaxKey s).year ≤ 9998) →
      advancedReference (truncMinute r) ≤ secHi →
      ¬(0 < dd ∧ civilDays (truncMinute r) - (dd - 1) < dayMin) →
      0 < mi →
      secLo ≤ advancedReference (truncMinute r)
        - Int.tdiv 86400 (60 * mi) * (60 * mi) →
      (∀ p ∈ s, secLo + 60 * mi ≤ toSec p.1 ∧ toSec p.1 ≤ secHi) →
      ∃ st, generate_statistics s r dd mi = .ok st ∧
        (st.hourly.map Prod.fst).getLast?
          = some (advancedReference (truncMinute r)) ∧
        (0 < dd → (st.dayly.map Prod.fst).getLast?
          = some (civilDays (truncMinute r))) ∧
        ((truncMinute r).hour = 0 ∧ (truncMinute r).minute = 0 → mi ∣ 1440 →
          (st.hourly.map Prod.fst).head? = some (toSec (truncMinute r)))) := by
  refine ⟨?_, ?_, ?_⟩
  · intro r h
    unfold advancedReference
    rw [if_pos h]
  · intro r h
    unfold advancedReference
    rw [if_neg h]
  · intro s r dd mi hne hval hdec hadv hday hmi hbkt hev
    obtain ⟨st, hok, hY, hM, hD, hH⟩ :=
      generate_statistics_ok s r dd mi hne hval hdec hadv hday hmi hbkt hev
    have htd0 : 0 ≤ Int.tdiv 86400 (60 * mi) := Int.tdiv_nonneg (by omega) (by omega)
    refine ⟨st, hok, ?_, ?_, ?_⟩
    · rw [hH, affineKeys_getLast? _ _ _ (by omega)]
      congr 1
      rw [show (((Int.tdiv 86400 (60 * mi) + 1).toNat : Nat) : Int)
        = Int.tdiv 86400 (60 * mi) + 1 by omega]
      ring
    · intro hdd
      rw [hD, affineKeys_getLast? _ _ _ (by omega)]
      congr 1
      omega
    · intro hmid hdvd
      rw [hH, affineKeys_head? _ _ _ (by omega)]
      congr 1
      have hA : advancedReference (truncMinute r) = toSec (truncMinute r) + 86400 := by
        unfold advancedReference
        rw [if_pos hmid]
      have hdvd' : (60 : Int) * mi ∣ 86400 := by
        obtain ⟨c, hc⟩ := hdvd
        exact ⟨c, by rw [show (86400 : Int) = 60 * 1440 by norm_num, hc]; ring⟩
      have hprod : 60 * mi * Int.tdiv 86400 (60 * mi) = 86400 := by
        rw [Int.tdiv_eq_ediv (by omega) (by omega)]
        exact Int.mul_ediv_cancel' hdvd'
      rw [hA, hprod]
      omega

theorem claim_C10_witness :
    advancedReference ⟨2020, 5, 10, 0, 0, 0⟩ = toSec ⟨2020, 5, 10, 0, 0, 0⟩ + 86400 ∧
    advancedReference ⟨2020, 5, 10, 10, 3, 0⟩ = toSec ⟨2020, 5, 10, 10, 3, 0⟩ + 60 ∧
    (∃ st, generate_statistics demoTS ⟨2020, 5, 10, 0, 0, 0⟩ 31 20 = .ok st ∧
      (st.hourly.map Prod.fst).getLast?
        = some (advancedReference (truncMinute ⟨2020, 5, 10, 0, 0, 0⟩)) ∧
      (0 < (31 : Int) → (st.dayly.map Prod.fst).getLast?
        = some (civilDays (truncMinute ⟨2020, 5, 10, 0, 0, 0⟩))) ∧
      ((truncMinute ⟨2020, 5, 10, 0, 0, 0⟩).hour = 0 ∧
          (truncMinute ⟨2020, 5, 10, 0, 0, 0⟩).minute = 0 → (20 : Int) ∣ 1440 →
        (st.hourly.map Prod.fst).head?
          = some (toSec (truncMinute ⟨2020, 5, 10, 0, 0, 0⟩)))) :=
  ⟨claim_C10.1 ⟨2020, 5, 10, 0, 0, 0⟩ (by decide),
    claim_C10.2.1 ⟨2020, 5, 10, 10, 3, 0⟩ (by decide),
    claim_C10.2.2 demoTS ⟨2020, 5, 10, 0, 0, 0⟩ 31 20 (by decide) (by decide)
      (by decide) (by decide) (by decide) (by decide) (by decide) (by decide)⟩

/-- C4 (counterexample): "for every non-empty store" fails at the edge
of the datetime range: a store whose newest event lies in December 9999
makes the aggregator raise `ValueError` (the month-grid takewhile
constructs `datetime(10000, 1, 1)`) instead of yielding any series. -/
theorem claim_C4_counterexample :
    generate_statistics [(⟨9999, 12, 1, 0, 0, 0⟩, 1)] demoRef 31 20
      = .error .valueError := rfl

/-- C4 (amended): for every non-empty store of valid events and every
in-range configuration (events and reference away from the 0001/9999
datetime boundaries, `windowDays ≥ 0`, `intervalMinutes > 0`), the four
series are dense with explicit zero counts and chronologically
ascending: the yearly series has exactly one entry per year from the
oldest to the newest observed year, the monthly series one entry per
calendar month over the observed range, the daily series one entry per
day of its window (which ends at the reference date), and the intraday
series exactly `floor(1440/intervalMinutes) + 1` buckets stepping by
the interval; a store with events only in 2020 and 2023 yields exactly
the four yearly entries 2020..2023 with counts (3, 0, 0, 5). -/
theorem claim_C4 :
    (∀ (s : TimeSeries) (r : DateTime) (dd mi : Int),
      s ≠ [] → (∀ p ∈ s, (p.1 : DateTime).Valid) →
      ((tsMaxKey s).month = 12 → (tsMaxKey s).year ≤ 9998) →
      advancedReference (truncMinute r) ≤ secHi →
      0 ≤ dd →
      ¬(0 < dd ∧ civilDays (truncMinute r) - (dd - 1) < dayMin) →
      0 < mi →
      secLo ≤ advancedReference (truncMinute r)
        - Int.tdiv 86400 (60 * mi) * (60 * mi) →
      (∀ p ∈ s, secLo + 60 * mi ≤ toSec p.1 ∧ toSec p.1 ≤ secHi) →
      ∃ st, generate_statistics s r dd mi = .ok st ∧
        List.Chain' (fun a b => b = a + 1) (st.yearly.map Prod.fst) ∧
        (st.yearly.map Prod.fst).head? = some (tsMinKey s).year ∧
        (st.yearly.map Prod.fst).getLast? = some (tsMaxKey s).year ∧
        (st.yearly.map Prod.fst).length
          = ((tsMaxKey s).year + 1 - (tsMinKey s).year).toNat ∧
        List.Chain' (fun a b => b = a + 1) (st.monthly.map Prod.fst) ∧
        (st.monthly.map Prod.fst).head?
          = some (mIdx (tsMinKey s).year (tsMinKey s).month) ∧
        (st.monthly.map Prod.fst).getLast?
          = some (mIdx (tsMaxKey s).year (tsMaxKey s).month) ∧
        List.Chain' (fun a b => b = a + 1) (st.dayly.map Prod.fst) ∧
        (st.dayly.map Prod.fst).length = dd.toNat ∧
        (0 < dd → (st.dayly.map Prod.fst).getLast?
          = some (civilDays (truncMinute r))) ∧
        List.Chain' (fun a b => b = a + 60 * mi) (st.hourly.map Prod.fst) ∧
        (st.hourly.map Prod.fst).length = (Int.tdiv 1440 mi).toNat + 1) ∧
    (generate_statistics demoTwoYears ⟨2023, 2, 3, 10, 3, 0⟩ 31 20).toOption.map Stats.yearly
      = some [(2020, 3), (2021, 0), (2022, 0), (2023, 5)] := by
  refine ⟨?_, by decide⟩
  intro s r dd mi hne hval hdec hadv hdd0 hday hmi hbkt hev
  obtain ⟨st, hok, hY, hM, hD, hH⟩ :=
    generate_statistics_ok s r dd mi hne hval hdec hadv hday hmi hbkt hev
  have hvalO := tsMinKey_valid s hne hval
  have hvalN := tsMaxKey_valid s hne hval
  obtain ⟨p0, hp0⟩ : ∃ p, p ∈ s := by
    cases s with
    | nil => exact absurd rfl hne
    | cons q rest => exact ⟨q, by simp⟩
  have hON : dtIdx (tsMinKey s) ≤ dtIdx (tsMaxKey s) :=
    le_trans (tsMinKey_le s hval p0 hp0) (tsMaxKey_ge s hval p0 hp0)
  have hmle : mIdx (tsMinKey s).year (tsMinKey s).month
      ≤ mIdx (tsMaxKey s).year (tsMaxKey s).month := dtIdx_le_mIdx hvalO hvalN hON
  have hyle : (tsMinKey s).year ≤ (tsMaxKey s).year := dtIdx_le_year hvalO hvalN hON
  have htd0 : 0 ≤ Int.tdiv 86400 (60 * mi) := Int.tdiv_nonneg (by omega) (by omega)
  have htd1 : 0 ≤ Int.tdiv 1440 mi := Int.tdiv_nonneg (by omega) (by omega)
  refine ⟨st, hok, ?_, ?_, ?_, ?_, ?_, ?_, ?_, ?_, ?_, ?_, ?_, ?_⟩
  · rw [hY]; exact affineKeys_chain' _ _ _
  · rw [hY, affineKeys_head? _ _ _ (by omega)]
  · rw [hY, affineKeys_getLast? _ _ _ (by omega)]
    congr 1
    omega
  · rw [hY, affineKeys_length]
  · rw [hM]; exact affineKeys_chain' _ _ _
  · rw [hM, affineKeys_head? _ _ _ (by omega)]
  · rw [hM, affineKeys_getLast? _ _ _ (by omega)]
    congr 1
    omega
  · rw [hD]; exact affineKeys_chain' _ _ _
  · rw [hD, affineKeys_length]
  · intro hdd
    rw [hD, affineKeys_getLast? _ _ _ (by omega)]
    congr 1
    omega
  · rw [hH]; exact affineKeys_chain' _ _ _
  · rw [hH, affineKeys_length, tdiv_86400_scale mi hmi]
    omega

theorem claim_C4_witness :
    (∃ st, generate_statistics demoTS demoRef 31 20 = .ok st ∧
      List.Chain' (fun a b => b = a + 1) (st.yearly.map Prod.fst) ∧
      (st.yearly.map Prod.fst).head? = some (tsMinKey demoTS).year ∧
      (st.yearly.map Prod.fst).getLast? = some (tsMaxKey demoTS).year ∧
      (st.yearly.map Prod.fst).length
        = ((tsMaxKey demoTS).year + 1 - (tsMinKey demoTS).year).toNat ∧
      List.Chain' (fun a b => b = a + 1) (st.monthly.map Prod.fst) ∧
      (st.monthly.map Prod.fst).head?
        = some (mIdx (tsMinKey demoTS).year (tsMinKey demoTS).month) ∧
      (st.monthly.map Prod.fst).getLast?
        = some (mIdx (tsMaxKey demoTS).year (tsMaxKey demoTS).month) ∧
      List.Chain' (fun a b => b = a + 1) (st.dayly.map Prod.fst) ∧
      (st.dayly.map Prod.fst).length = (31 : Int).toNat ∧
      (0 < (31 : Int) → (st.dayly.map Prod.fst).getLast?
        = some (civilDays (truncMinute demoRef))) ∧
      List.Chain' (fun a b => b = a + 60 * 20) (st.hourly.map Prod.fst) ∧
      (st.hourly.map Prod.fst).length = (Int.tdiv 1440 20).toNat + 1) :=
  claim_C4.1 demoTS demoRef 31 20 (by decide) (by decide) (by decide) (by decide)
    (by decide) (by decide) (by decide) (by decide) (by decide)
